import Mathlib

/-!
Verification development for the sliding-window LD-pruning engine of the
polySV repository (`prune_ld.c`; the same engine is duplicated verbatim in
`poly_freq.c`).  The C code is shallowly embedded: dosage vectors are lists of
integers (`-1` encodes a missing individual, exactly as in the C `geno`
arrays), the circular SNP window is a list of slots, and the double-precision
r-squared computation is modelled exactly: all sums in `estR2` are sums of
small integers, which IEEE doubles compute exactly, and the final
`(r = num / sqrt(d)); r * r` is recorded as NaN, infinity, or the exact
rational `num^2 / d` kept as an explicit integer fraction.
-/

set_option maxRecDepth 40000

namespace PolySV

/-- Outcome of the floating-point expression `r*r` in the C `estR2`:
`nan` when the IEEE result is NaN (square root of a negative number, or
`0/0`), `inf` when it is infinite (nonzero numerator divided by a zero
square root), and `val n d` for the exact value `n / d` (with `d > 0` in
every use, so the squared result is the exact rational `n / d`). -/
inductive R2 where
  | nan : R2
  | inf : R2
  | val : ℤ → ℤ → R2
deriving DecidableEq

/-- The jointly non-missing pairs of two dosage vectors: the C loop in
`estR2` skips index `i` whenever `geno1[i] == -1 || geno2[i] == -1`. -/
def joint (g1 g2 : List Int) : List (Int × Int) :=
  (g1.zip g2).filter (fun p => !(p.1 == -1 || p.2 == -1))

/-- `sum1` of `estR2`. -/
def sumA (ps : List (Int × Int)) : Int := (ps.map (fun p => p.1)).sum

/-- `sum2` of `estR2`. -/
def sumB (ps : List (Int × Int)) : Int := (ps.map (fun p => p.2)).sum

/-- `sum12` of `estR2`. -/
def sumAB (ps : List (Int × Int)) : Int := (ps.map (fun p => p.1 * p.2)).sum

/-- `sqsum1` of `estR2`. -/
def sqsumA (ps : List (Int × Int)) : Int := (ps.map (fun p => p.1 * p.1)).sum

/-- `sqsum2` of `estR2`. -/
def sqsumB (ps : List (Int × Int)) : Int := (ps.map (fun p => p.2 * p.2)).sum

/-- First factor `n*sqsum1 - sum1*sum1` under the square root in `estR2`. -/
def facA (ps : List (Int × Int)) : Int :=
  (ps.length : Int) * sqsumA ps - sumA ps * sumA ps

/-- Second factor `n*sqsum2 - sum2*sum2` under the square root in `estR2`. -/
def facB (ps : List (Int × Int)) : Int :=
  (ps.length : Int) * sqsumB ps - sumB ps * sumB ps

/-- Numerator `n*sum12 - sum1*sum2` of `estR2`. -/
def covN (ps : List (Int × Int)) : Int :=
  (ps.length : Int) * sumAB ps - sumA ps * sumB ps

/-- The C function
`double estR2(double geno1[], double geno2[], int n)`:
`r = (n*sum12 - sum1*sum2) / sqrt((n*sqsum1 - sum1*sum1)*(n*sqsum2 - sum2*sum2))`
and the result is `r*r`.  All sums are integer-exact in IEEE doubles, so the
result is NaN when the radicand is negative, NaN when numerator and radicand
both vanish (`0/0`), infinite when only the radicand vanishes, and otherwise
the exact nonnegative real `covN^2 / (facA*facB)`. -/
def estR2 (g1 g2 : List Int) : R2 :=
  let ps := joint g1 g2
  if facA ps * facB ps < 0 then R2.nan
  else if facA ps * facB ps = 0 then
    (if covN ps = 0 then R2.nan else R2.inf)
  else R2.val (covN ps * covN ps) (facA ps * facB ps)

/-- The comparison `estR2(...) > r2` of the C code, with IEEE semantics:
false for NaN, true for plus infinity, and the exact comparison
`t < n/d` (cross-multiplied by the positive denominators) otherwise. -/
def r2Exceeds (v : R2) (t : ℚ) : Bool :=
  match v with
  | R2.nan => false
  | R2.inf => true
  | R2.val n d => decide (t.num * d < n * (t.den : ℤ))

/-- For a positive denominator, `r2Exceeds` on an exact value is exactly the
rational comparison `t < n / d`. -/
theorem r2Exceeds_val_iff (n d : ℤ) (t : ℚ) (hd : 0 < d) :
    r2Exceeds (R2.val n d) t = true ↔ t < (n : ℚ) / (d : ℚ) := by
  have hden : (0 : ℚ) < (t.den : ℚ) := by exact_mod_cast t.pos
  have hdq : (0 : ℚ) < (d : ℚ) := by exact_mod_cast hd
  simp only [r2Exceeds, decide_eq_true_eq]
  rw [lt_div_iff hdq]
  conv_rhs => rw [show t = (t.num : ℚ) / (t.den : ℚ) from (Rat.num_div_den t).symm,
    div_mul_eq_mul_div, div_lt_iff hden]
  constructor
  · intro h
    have h2 : ((t.num * d : ℤ) : ℚ) < ((n * (t.den : ℤ) : ℤ) : ℚ) := by exact_mod_cast h
    push_cast at h2
    linarith
  · intro h
    have h2 : ((t.num * d : ℤ) : ℚ) < ((n * (t.den : ℤ) : ℤ) : ℚ) := by push_cast; linarith
    exact_mod_cast h2

/-- One slot of the circular SNP window (`SNP_s` of `prune_ld.c`, restricted
to the fields the pruning engine reads): chromosome (the empty string models
a cleared `chr`, i.e. a tombstoned slot), position, the dosage vector
`geno`, and the decision field `ok` (`-1` pending, `1` kept, `0` rejected or
already emitted). -/
structure SNP where
  chr : String
  pos : Int
  geno : List Int
  ok : Int
deriving DecidableEq

/-- Default slot: freshly allocated memory, modelled as zeroed. -/
def dSNP : SNP := ⟨"", 0, [], 0⟩

/-- Array indexing `snps[j]` of the window. -/
def slot (snps : List SNP) (j : ℕ) : SNP := snps.getD j dSNP

/-- The inner `j` loop of `estLD` for a fixed outer site (dosages `gi`,
chromosome `ci`), run over the list `js` of remaining slot indices.  Returns
the list of indices on which `estR2` is actually invoked and whether the
loop ended with `break` (an exceeding pair was found).  Tombstoned slots and
slots on a different chromosome are skipped before `estR2` is called. -/
def scanLoop (snps : List SNP) (t : ℚ) (gi : List Int) (ci : String) :
    List ℕ → List ℕ × Bool
  | [] => ([], false)
  | j :: js =>
    if (slot snps j).chr = "" then scanLoop snps t gi ci js
    else if (slot snps j).chr ≠ ci then scanLoop snps t gi ci js
    else if r2Exceeds (estR2 gi (slot snps j).geno) t then ([j], true)
    else
      let r := scanLoop snps t gi ci js
      (j :: r.1, r.2)

/-- The body of the outer `i` loop of `estLD`: a tombstoned slot is left
untouched; otherwise the forward scan runs over indices `i+1 .. win-1` and
the slot is marked kept (`ok = 1`) when the scan finished without `break`
(`j == win`) and the previous state was pending or kept, rejected (`ok = 0`)
in every other case. -/
def evalSlot (snps : List SNP) (t : ℚ) (i : ℕ) : SNP :=
  if (slot snps i).chr = "" then slot snps i
  else if (scanLoop snps t (slot snps i).geno (slot snps i).chr
            (List.range' (i+1) (snps.length - (i+1)))).2 = false
          ∧ ((slot snps i).ok = -1 ∨ (slot snps i).ok = 1)
  then { slot snps i with ok := 1 }
  else { slot snps i with ok := 0 }

/-- `void estLD(SNP_s *snps, int win, int ind_n, double r2)`: the window
evaluator, acting on the first `win` slots (the list passed here).  No
slot's `ok` field is read by another slot's scan, so the C in-place update
is an independent per-index map. -/
def estLD (snps : List SNP) (t : ℚ) : List SNP :=
  (List.range snps.length).map (fun i => evalSlot snps t i)

/-- A pre-parsed VCF data record as the engine sees it: chromosome, position
and, per individual, either `none` (missing genotype, first character `.`)
or `some (dosage, ploidy)` as produced by the dosage extractor. -/
structure Record where
  chr : String
  pos : Int
  gs : List (Option (ℕ × ℕ))
deriving DecidableEq

/-- The `geno` array entry written for one individual: `-1` for missing,
otherwise the dosage. -/
def genoOf (g : Option (ℕ × ℕ)) : Int :=
  match g with
  | none => -1
  | some d => (d.1 : Int)

/-- `mis_i`: the number of missing individuals of a record. -/
def misCount (rec : Record) : ℕ := rec.gs.countP (fun g => g == none)

/-- `alt_i`: total alt-allele dosage over the non-missing individuals (an
integer, accumulated exactly by the C doubles). -/
def altN (rec : Record) : ℕ := ((rec.gs.filterMap id).map (fun d => d.1)).sum

/-- `hap_i`: total allele (haplotype) count over the non-missing
individuals, each contributing its ploidy (an integer, accumulated exactly
by the C doubles). -/
def hapN (rec : Record) : ℕ := ((rec.gs.filterMap id).map (fun d => d.2)).sum

/-- The engine's configuration: `-r2 win step r2` plus the `-mis` and
`-maf` thresholds. -/
structure Config where
  win : ℕ
  step : ℕ
  mis : ℚ
  maf : ℚ
  r2 : ℚ

/-- The mutable state of `readVcf` that the pruning engine threads through
the stream: the window slots, the counters `win_n`, `win_i`, `step_i`, the
individual count `ind_n`, the list of emitted (kept) sites in output order,
and a ghost counter of `estLD` invocations. -/
structure DriverState where
  snps : List SNP
  win_n : ℕ
  win_i : ℕ
  step_i : ℕ
  ind_n : ℕ
  out : List (String × Int)
  evals : ℕ
deriving DecidableEq

/-- State at the first data row: `win` freshly allocated (zeroed) slots and
all counters zero. -/
def initState (cfg : Config) : DriverState :=
  ⟨List.replicate cfg.win dSNP, 0, 0, 0, 0, [], 0⟩

/-- One call `estLD(snps, win_n + 1, ind_n, r2)`: the first `win_n + 1`
slots are evaluated in place, the rest are untouched. -/
def evalWindow (cfg : Config) (st : DriverState) : DriverState :=
  { st with
    snps := estLD (st.snps.take (st.win_n + 1)) cfg.r2 ++ st.snps.drop (st.win_n + 1),
    evals := st.evals + 1 }

/-- The emission step `if(snps[k].ok == 1) { printOut(...); snps[k].ok = 0; }`:
a kept slot is printed once and its `ok` cleared to avoid double emission. -/
def emitAt (st : DriverState) (k : ℕ) : DriverState :=
  if (slot st.snps k).ok = 1 then
    { st with
      out := st.out ++ [((slot st.snps k).chr, (slot st.snps k).pos)],
      snps := st.snps.set k { slot st.snps k with ok := 0 } }
  else st

/-- The flush loop of `readVcf` (used at a chromosome change and at end of
stream): `win` iterations over the circular buffer starting at `win_i`,
emitting every slot whose `ok` is `1`. -/
def flushEmit (cfg : Config) (st : DriverState) : DriverState :=
  (List.range cfg.win).foldl (fun s k => emitAt s ((st.win_i + k) % cfg.win)) st

/-- The chromosome-change branch of `readVcf` (before the new site is
placed): evaluate the current window, flush kept sites, and reset `win_n`,
`win_i` and `step_i` to zero.  (The C code then also zeroes slot 0's dosage
array so the upcoming `+=` accumulation starts from zero; the embedding's
slot write stores the record's absolute dosages, which is the same, so that
memset needs no counterpart here.) -/
def chrFlush (cfg : Config) (st : DriverState) : DriverState :=
  let st1 := evalWindow cfg st
  let st2 := flushEmit cfg st1
  { st2 with win_n := 0, win_i := 0, step_i := 0 }

/-- `memset(snps[win_i].geno, 0, geno_n * sizeof(double))`: at the start of
each data row the dosage vector of the slot the cursor points at is zeroed
(the slot's chromosome, position and `ok` are untouched).  This happens
before the chromosome-change test, so a chromosome-boundary flush sees this
slot with a zeroed dosage vector. -/
def clearGeno (st : DriverState) : DriverState :=
  let s := slot st.snps st.win_i
  { st with snps := st.snps.set st.win_i { s with geno := List.replicate s.geno.length 0 } }

/-- Parsing one data row up to and including the slot write: the `memset`
of the cursor slot's dosage vector, the chromosome change test
`win_n > 0 && strcmp(snps[0].chr, chr) != 0` (which flushes and resets
first), then the write of chromosome, position, dosage vector and `ok = -1`
into slot `win_i`. -/
def placeRecord (cfg : Config) (st : DriverState) (rec : Record) : DriverState :=
  let st0 := clearGeno st
  let st1 := if 0 < st0.win_n ∧ (slot st0.snps 0).chr ≠ rec.chr then chrFlush cfg st0 else st0
  { st1 with snps := st1.snps.set st1.win_i ⟨rec.chr, rec.pos, rec.gs.map genoOf, -1⟩ }

/-- The state after the slot write and the `if(ind_n == 0) ind_n = ind_i;`
assignment, just before the pre-filter tests. -/
def placedState (cfg : Config) (st : DriverState) (rec : Record) : DriverState :=
  { placeRecord cfg st rec with ind_n := if st.ind_n = 0 then rec.gs.length else st.ind_n }

/-- `snps[win_i].chr` cleared: tombstone the slot just written (the record
failed a pre-filter); all counters are left unchanged. -/
def tombSlot (st : DriverState) : DriverState :=
  { st with snps := st.snps.set st.win_i { slot st.snps st.win_i with chr := "" } }

/-- The tail of the per-record processing once the pre-filters have passed:
the evaluation trigger
`(win_n == win-1 && step_i >= step) || (win == step && win_i == win-1)`,
the counter updates, and the steady-state emission of the slot the cursor
has moved to. -/
def afterFilters (cfg : Config) (st : DriverState) : DriverState :=
  let st1 := if (st.win_n = cfg.win - 1 ∧ cfg.step ≤ st.step_i)
                ∨ (cfg.win = cfg.step ∧ st.win_i = cfg.win - 1)
             then { evalWindow cfg st with step_i := 0 } else st
  let st2 := { st1 with
               win_n := if st1.win_n < cfg.win - 1 then st1.win_n + 1 else st1.win_n,
               step_i := st1.step_i + 1,
               win_i := if st1.win_i + 1 = cfg.win then 0 else st1.win_i + 1 }
  if st2.win_n = cfg.win - 1 then emitAt st2 st2.win_i else st2

/-- Processing of one record that is stipulated to pass the missing-data
and minor-allele-frequency pre-filters (the engine-level step: the spec
treats the pre-filters as external collaborators). -/
def stepPassed (cfg : Config) (st : DriverState) (rec : Record) : DriverState :=
  afterFilters cfg (placedState cfg st rec)

/-- The missing-data pre-filter test
`mis_i / ind_n > 1 - mis || mis_i == ind_n` of `readVcf`. -/
abbrev misFails (cfg : Config) (st : DriverState) (rec : Record) : Prop :=
  1 - cfg.mis < (misCount rec : ℚ) / ((placedState cfg st rec).ind_n : ℚ)
    ∨ misCount rec = (placedState cfg st rec).ind_n

/-- The minor-allele-frequency pre-filter test
`alt_i / hap_i < maf || alt_i / hap_i > 1 - maf` of `readVcf`. -/
abbrev mafFails (cfg : Config) (rec : Record) : Prop :=
  (altN rec : ℚ) / (hapN rec : ℚ) < cfg.maf
    ∨ 1 - cfg.maf < (altN rec : ℚ) / (hapN rec : ℚ)

/-- Full processing of one record, pre-filters included, as in `readVcf`:
place the record, set `ind_n` from the first data row, then the two
pre-filter tests (tombstoning the slot and stopping on failure), and
otherwise the trigger/counter/emission tail. -/
def stepRecord (cfg : Config) (st : DriverState) (rec : Record) : DriverState :=
  if misFails cfg st rec then tombSlot (placedState cfg st rec)
  else if mafFails cfg rec then tombSlot (placedState cfg st rec)
  else stepPassed cfg st rec

/-- A whole run over a stream of pre-filter-passing records, including the
end-of-stream `estLD(snps, win_n + 1, ...)` and final flush. -/
def runPassed (cfg : Config) (recs : List Record) : DriverState :=
  let st := recs.foldl (stepPassed cfg) (initState cfg)
  flushEmit cfg (evalWindow cfg st)

/-- A whole run over raw records, pre-filters included. -/
def runFull (cfg : Config) (recs : List Record) : DriverState :=
  let st := recs.foldl (stepRecord cfg) (initState cfg)
  flushEmit cfg (evalWindow cfg st)

theorem stepRecord_passes (cfg : Config) (st : DriverState) (rec : Record)
    (h1 : ¬ misFails cfg st rec) (h2 : ¬ mafFails cfg rec) :
    stepRecord cfg st rec = stepPassed cfg st rec := by
  unfold stepRecord
  rw [if_neg h1, if_neg h2]

/-- Error cases of the dosage extractor in `readVcf`. -/
inductive GenoErr where
  | unsupportedPloidy : GenoErr
  | unknownAllele : GenoErr
deriving DecidableEq

/-- Result of the dosage extractor: missing, or a dosage with its ploidy. -/
inductive Geno where
  | missing : Geno
  | val : ℕ → ℕ → Geno
deriving DecidableEq

/-- The characters at even offsets of a token — the allele symbols of the
alternating allele/separator layout; the C loop
`for(i = 0; i <= stop; i += 2)` visits exactly these for the supported
(odd) token lengths. -/
def evenAlleles : List Char → List Char
  | [] => []
  | [c] => [c]
  | c :: _ :: rest => c :: evenAlleles rest

/-- The `switch(strlen(...))` of `readVcf`: token length to ploidy, with
`0` marking the fatal `default` branch. -/
def ploidyOf (n : ℕ) : ℕ :=
  if n = 3 then 2 else if n = 7 then 4 else if n = 11 then 6 else if n = 15 then 8 else 0

/-- The per-individual dosage extraction of `readVcf` (lines 332-370 of
`prune_ld.c`): a token starting with `.` is missing; an unsupported length
aborts the run; an even-offset character other than `0`/`1` aborts the run;
otherwise the dosage is the sum of the allele characters. -/
def extractDosage (tok : List Char) : Except GenoErr Geno :=
  match tok with
  | [] => Except.error GenoErr.unsupportedPloidy
  | c :: _ =>
    if c = '.' then Except.ok Geno.missing
    else if ploidyOf tok.length = 0 then Except.error GenoErr.unsupportedPloidy
    else if (evenAlleles tok).all (fun a => a == '0' || a == '1') then
      Except.ok (Geno.val ((evenAlleles tok).countP (fun a => a == '1')) (ploidyOf tok.length))
    else Except.error GenoErr.unknownAllele

/-- The threshold `0.1`, as a normal-form rational. -/
def tenth : ℚ := ⟨1, 10, by decide, by decide⟩

theorem tenth_eq : tenth = 1/10 := by
  rw [← Rat.num_div_den tenth]
  norm_num [tenth]

/-- The default `-mis 0.6`, as a normal-form rational. -/
def threeFifths : ℚ := ⟨3, 5, by decide, by decide⟩

theorem threeFifths_eq : threeFifths = 6/10 := by
  rw [← Rat.num_div_den threeFifths]
  norm_num [threeFifths]

/-- The default `-maf 0.05`, as a normal-form rational. -/
def twentieth : ℚ := ⟨1, 20, by decide, by decide⟩

theorem twentieth_eq : twentieth = 1/20 := by
  rw [← Rat.num_div_den twentieth]
  norm_num [twentieth]

/-- The spec-side conflict predicate for slot `i`: some active later slot
`j` in buffer order shares `i`'s chromosome and correlates above the
threshold. -/
def Conflicts (snps : List SNP) (t : ℚ) (i : ℕ) : Prop :=
  ∃ j, i < j ∧ j < snps.length ∧ (slot snps j).chr ≠ "" ∧
    (slot snps j).chr = (slot snps i).chr ∧
    r2Exceeds (estR2 (slot snps i).geno (slot snps j).geno) t = true

theorem scanLoop_break_iff (snps : List SNP) (t : ℚ) (gi : List Int) (ci : String)
    (js : List ℕ) :
    (scanLoop snps t gi ci js).2 = true ↔
      ∃ j ∈ js, (slot snps j).chr ≠ "" ∧ (slot snps j).chr = ci ∧
        r2Exceeds (estR2 gi (slot snps j).geno) t = true := by
  induction js with
  | nil => simp [scanLoop]
  | cons j js ih =>
    by_cases h1 : (slot snps j).chr = ""
    · simp only [scanLoop, if_pos h1]
      rw [ih]
      constructor
      · rintro ⟨a, ha, hx⟩
        exact ⟨a, List.mem_cons_of_mem _ ha, hx⟩
      · rintro ⟨a, ha, hx1, hx2, hx3⟩
        rcases List.mem_cons.mp ha with rfl | ha'
        · exact absurd h1 hx1
        · exact ⟨a, ha', hx1, hx2, hx3⟩
    · by_cases h2 : (slot snps j).chr = ci
      · by_cases h3 : r2Exceeds (estR2 gi (slot snps j).geno) t = true
        · simp only [scanLoop, if_neg h1, if_neg (not_not_intro h2), if_pos h3]
          constructor
          · intro
            exact ⟨j, List.mem_cons_self j js, h1, h2, h3⟩
          · intro
            trivial
        · simp only [scanLoop, if_neg h1, if_neg (not_not_intro h2), if_neg h3]
          rw [show (j :: (scanLoop snps t gi ci js).1, (scanLoop snps t gi ci js).2).2
              = (scanLoop snps t gi ci js).2 from rfl, ih]
          constructor
          · rintro ⟨a, ha, hx⟩
            exact ⟨a, List.mem_cons_of_mem _ ha, hx⟩
          · rintro ⟨a, ha, hx1, hx2, hx3⟩
            rcases List.mem_cons.mp ha with rfl | ha'
            · exact absurd hx3 h3
            · exact ⟨a, ha', hx1, hx2, hx3⟩
      · simp only [scanLoop, if_neg h1, if_pos h2]
        rw [ih]
        constructor
        · rintro ⟨a, ha, hx⟩
          exact ⟨a, List.mem_cons_of_mem _ ha, hx⟩
        · rintro ⟨a, ha, hx1, hx2, hx3⟩
          rcases List.mem_cons.mp ha with rfl | ha'
          · exact absurd hx2 h2
          · exact ⟨a, ha', hx1, hx2, hx3⟩

theorem chr_of_mem_scanLoop (snps : List SNP) (t : ℚ) (gi : List Int) (ci : String)
    (js : List ℕ) :
    ∀ j ∈ (scanLoop snps t gi ci js).1,
      (slot snps j).chr = ci ∧ (slot snps j).chr ≠ "" := by
  induction js with
  | nil => simp [scanLoop]
  | cons j js ih =>
    intro k hk
    by_cases h1 : (slot snps j).chr = ""
    · simp only [scanLoop, if_pos h1] at hk
      exact ih k hk
    · by_cases h2 : (slot snps j).chr = ci
      · by_cases h3 : r2Exceeds (estR2 gi (slot snps j).geno) t = true
        · simp only [scanLoop, if_neg h1, if_neg (not_not_intro h2), if_pos h3] at hk
          rcases List.mem_singleton.mp hk with rfl
          exact ⟨h2, h1⟩
        · simp only [scanLoop, if_neg h1, if_neg (not_not_intro h2), if_neg h3] at hk
          rcases List.mem_cons.mp hk with rfl | hk'
          · exact ⟨h2, h1⟩
          · exact ih k hk'
      · simp only [scanLoop, if_neg h1, if_pos h2] at hk
        exact ih k hk

theorem scan_eq_conflicts (snps : List SNP) (t : ℚ) (i : ℕ) :
    ((scanLoop snps t (slot snps i).geno (slot snps i).chr
        (List.range' (i+1) (snps.length - (i+1)))).2 = true) ↔ Conflicts snps t i := by
  rw [scanLoop_break_iff]
  constructor
  · rintro ⟨j, hj, hc1, hc2, hc3⟩
    rw [List.mem_range'] at hj
    obtain ⟨k, hk, rfl⟩ := hj
    exact ⟨i + 1 + 1 * k, by omega, by omega, hc1, hc2, hc3⟩
  · rintro ⟨j, hij, hjl, hc1, hc2, hc3⟩
    refine ⟨j, ?_, hc1, hc2, hc3⟩
    rw [List.mem_range']
    exact ⟨j - (i + 1), by omega, by omega⟩

instance (snps : List SNP) (t : ℚ) (i : ℕ) : Decidable (Conflicts snps t i) :=
  decidable_of_iff _ (scan_eq_conflicts snps t i)

theorem estLD_length (snps : List SNP) (t : ℚ) : (estLD snps t).length = snps.length := by
  simp [estLD]

theorem slot_estLD (snps : List SNP) (t : ℚ) (i : ℕ) (h : i < snps.length) :
    slot (estLD snps t) i = evalSlot snps t i := by
  simp [slot, estLD, List.getD_eq_getElem?_getD, List.getElem?_map, List.getElem?_range h]

theorem evalSlot_ok_eq (snps : List SNP) (t : ℚ) (i : ℕ)
    (ha : (slot snps i).chr ≠ "") :
    (evalSlot snps t i).ok =
      if ¬ Conflicts snps t i ∧ ((slot snps i).ok = -1 ∨ (slot snps i).ok = 1)
      then 1 else 0 := by
  have hscan := scan_eq_conflicts snps t i
  by_cases hc : Conflicts snps t i
  · have hb : (scanLoop snps t (slot snps i).geno (slot snps i).chr
        (List.range' (i+1) (snps.length - (i+1)))).2 = true := hscan.mpr hc
    simp [evalSlot, ha, hb, hc]
  · have hb : (scanLoop snps t (slot snps i).geno (slot snps i).chr
        (List.range' (i+1) (snps.length - (i+1)))).2 = false := by
      rcases Bool.eq_false_or_eq_true (scanLoop snps t (slot snps i).geno
        (slot snps i).chr (List.range' (i+1) (snps.length - (i+1)))).2 with h | h
      · exact absurd (hscan.mp h) hc
      · exact h
    by_cases hp : (slot snps i).ok = -1 ∨ (slot snps i).ok = 1
    · simp [evalSlot, ha, hb, hc, hp]
    · simp [evalSlot, ha, hb, hc, hp]

/-- Claim C2: for every call of the window evaluator over the slots of the
window, an active (non-tombstoned) slot `i` ends up marked kept (`ok = 1`)
exactly when its forward scan over active later same-chromosome slots found
no pair exceeding the threshold and its prior state was pending (`-1`) or
kept (`1`); in every other case it ends up rejected (`ok = 0`). -/
theorem claim_C2_kept_iff (snps : List SNP) (t : ℚ) (i : ℕ)
    (h : i < snps.length) (ha : (slot snps i).chr ≠ "") :
    ((slot (estLD snps t) i).ok = 1 ↔
      ¬ Conflicts snps t i ∧ ((slot snps i).ok = -1 ∨ (slot snps i).ok = 1))
    ∧ ((slot (estLD snps t) i).ok = 0 ↔
      ¬ (¬ Conflicts snps t i ∧ ((slot snps i).ok = -1 ∨ (slot snps i).ok = 1))) := by
  rw [slot_estLD snps t i h, evalSlot_ok_eq snps t i ha]
  by_cases hcond : ¬ Conflicts snps t i ∧ ((slot snps i).ok = -1 ∨ (slot snps i).ok = 1)
  · rw [if_pos hcond]
    simp [hcond]
  · rw [if_neg hcond]
    simp [hcond]

/-- Window used by the claim C2 witness. -/
def cexC2 : List SNP := [⟨"1", 10, [0, 1, 2], -1⟩, ⟨"1", 20, [0, 0, 0], -1⟩]

/-- Claim C2 witness: in `cexC2` slot 0 has no conflicting partner (the
only candidate pair has a NaN r-squared) and is pending, so it is kept. -/
theorem claim_C2_witness : (slot (estLD cexC2 tenth) 0).ok = 1 :=
  (claim_C2_kept_iff cexC2 tenth 0 (by decide) (by decide)).1.mpr
    ⟨by decide, Or.inl (by decide)⟩

/-- Buffer witnessing claim C3 false: slot 1 is already rejected
(`ok = 0`), and slot 0's only above-threshold correlation is with slot 1. -/
def cexC3 : List SNP := [⟨"1", 10, [0, 1, 2], -1⟩, ⟨"1", 20, [0, 1, 2], 0⟩]

/-- Claim C3 counterexample: the evaluator's scan never consults the
decision state of the partner slot.  In `cexC3` the only above-threshold
correlation of slot 0 is with slot 1, whose state is already Rejected
(`ok = 0`), yet the evaluator still rejects slot 0 — the claim says it
should not be rejected. -/
theorem claim_C3_counterexample :
    (slot cexC3 1).ok = 0
    ∧ r2Exceeds (estR2 (slot cexC3 0).geno (slot cexC3 1).geno) tenth = true
    ∧ (slot (estLD cexC3 tenth) 0).ok = 0 :=
  ⟨by decide, by decide, by decide⟩

/-- Claim C3 (amended): the evaluator rejects an active site whenever some
active later same-chromosome site correlates above the threshold,
regardless of that site's decision state — in particular a site whose only
above-threshold correlations are with already-rejected sites is still
rejected. -/
theorem claim_C3_amended (snps : List SNP) (t : ℚ) (i : ℕ)
    (h : i < snps.length) (ha : (slot snps i).chr ≠ "")
    (hc : Conflicts snps t i) :
    (slot (estLD snps t) i).ok = 0 := by
  rw [slot_estLD snps t i h, evalSlot_ok_eq snps t i ha]
  simp [hc]

/-- Claim C3 amended witness: slot 0 of `cexC3` is rejected. -/
theorem claim_C3_amended_witness : (slot (estLD cexC3 tenth) 0).ok = 0 :=
  claim_C3_amended cexC3 tenth 0 (by decide) (by decide) (by decide)

/-- A sequence of successive window-evaluator calls on the same buffer
(the slot contents are not overwritten between calls). -/
def iterEval (snps : List SNP) (ts : List ℚ) : List SNP := ts.foldl estLD snps

theorem estLD_rejected_stays (snps : List SNP) (t : ℚ) (i : ℕ)
    (h0 : (slot snps i).ok = 0) : (slot (estLD snps t) i).ok = 0 := by
  by_cases h : i < snps.length
  · rw [slot_estLD snps t i h]
    by_cases ha : (slot snps i).chr = ""
    · rw [show evalSlot snps t i = slot snps i from if_pos ha]
      exact h0
    · rw [evalSlot_ok_eq snps t i ha]
      have hp : ¬ ((slot snps i).ok = -1 ∨ (slot snps i).ok = 1) := by
        rw [h0]
        rintro (h | h) <;> simp at h
      rw [if_neg (fun hcond => hp hcond.2)]
  · have hlen : (estLD snps t).length ≤ i := by
      rw [estLD_length]
      omega
    rw [slot, List.getD_eq_getElem?_getD, List.getElem?_eq_none hlen]
    rfl

/-- Claim C4: once a slot's decision state is Rejected (`ok = 0`), any
sequence of further evaluator calls during which the slot is not
overwritten leaves it Rejected — it is never marked Kept again. -/
theorem claim_C4_rejected_never_kept (snps : List SNP) (ts : List ℚ) (i : ℕ)
    (h0 : (slot snps i).ok = 0) : (slot (iterEval snps ts) i).ok = 0 := by
  induction ts generalizing snps with
  | nil => exact h0
  | cons t ts ih => exact ih (estLD snps t) (estLD_rejected_stays snps t i h0)

/-- Claim C4 witness: a rejected slot stays rejected over two further
evaluation passes with different thresholds. -/
theorem claim_C4_witness :
    (slot (iterEval [⟨"1", 10, [0, 1, 2], 0⟩] [tenth, 1]) 0).ok = 0 :=
  claim_C4_rejected_never_kept [⟨"1", 10, [0, 1, 2], 0⟩] [tenth, 1] 0 (by decide)

theorem list_map_sum_eq (l : List (Int × Int)) (f : Int × Int → Int) :
    (l.map f).sum = ∑ k ∈ Finset.range l.length, f (l.getD k (0, 0)) := by
  induction l with
  | nil => simp
  | cons a l ih =>
    rw [List.map_cons, List.sum_cons, List.length_cons, Finset.sum_range_succ']
    simp only [List.getD_cons_succ, List.getD_cons_zero]
    rw [ih]
    ring

theorem sumA_eq (ps : List (Int × Int)) :
    sumA ps = ∑ k ∈ Finset.range ps.length, (ps.getD k (0, 0)).1 :=
  list_map_sum_eq ps _

theorem sumB_eq (ps : List (Int × Int)) :
    sumB ps = ∑ k ∈ Finset.range ps.length, (ps.getD k (0, 0)).2 :=
  list_map_sum_eq ps _

theorem sumAB_eq (ps : List (Int × Int)) :
    sumAB ps = ∑ k ∈ Finset.range ps.length, (ps.getD k (0, 0)).1 * (ps.getD k (0, 0)).2 :=
  list_map_sum_eq ps _

theorem sqsumA_eq (ps : List (Int × Int)) :
    sqsumA ps = ∑ k ∈ Finset.range ps.length, (ps.getD k (0, 0)).1 * (ps.getD k (0, 0)).1 :=
  list_map_sum_eq ps _

theorem sqsumB_eq (ps : List (Int × Int)) :
    sqsumB ps = ∑ k ∈ Finset.range ps.length, (ps.getD k (0, 0)).2 * (ps.getD k (0, 0)).2 :=
  list_map_sum_eq ps _

theorem center_sum (m : ℕ) (A B : ℕ → ℤ) :
    ∑ k ∈ Finset.range m,
        (((m : ℤ) * A k - ∑ j ∈ Finset.range m, A j)
          * ((m : ℤ) * B k - ∑ j ∈ Finset.range m, B j))
    = (m : ℤ) * ((m : ℤ) * (∑ k ∈ Finset.range m, A k * B k)
        - (∑ k ∈ Finset.range m, A k) * (∑ k ∈ Finset.range m, B k)) := by
  have hexp : ∀ k ∈ Finset.range m,
      ((m : ℤ) * A k - ∑ j ∈ Finset.range m, A j)
        * ((m : ℤ) * B k - ∑ j ∈ Finset.range m, B j)
      = (m : ℤ) * (m : ℤ) * (A k * B k)
        - ((m : ℤ) * (∑ j ∈ Finset.range m, B j)) * A k
        - ((m : ℤ) * (∑ j ∈ Finset.range m, A j)) * B k
        + (∑ j ∈ Finset.range m, A j) * (∑ j ∈ Finset.range m, B j) :=
    fun k _ => by ring
  rw [Finset.sum_congr rfl hexp, Finset.sum_add_distrib, Finset.sum_sub_distrib,
      Finset.sum_sub_distrib, ← Finset.mul_sum, ← Finset.mul_sum, ← Finset.mul_sum,
      Finset.sum_const, Finset.card_range, nsmul_eq_mul]
  ring

theorem fac_nonneg_aux (m : ℕ) (A : ℕ → ℤ) :
    0 ≤ (m : ℤ) * ((m : ℤ) * (∑ k ∈ Finset.range m, A k * A k)
      - (∑ k ∈ Finset.range m, A k) * (∑ k ∈ Finset.range m, A k)) := by
  rw [← center_sum m A A]
  exact Finset.sum_nonneg fun k _ => mul_self_nonneg _

theorem facA_nonneg (ps : List (Int × Int)) : 0 ≤ facA ps := by
  rcases eq_or_ne ps [] with rfl | hne
  · decide
  · have hm : (0 : ℤ) < (ps.length : ℤ) := by
      exact_mod_cast List.length_pos.mpr hne
    have haux := fac_nonneg_aux ps.length (fun k => (ps.getD k (0, 0)).1)
    have heq : facA ps = (ps.length : ℤ) * (∑ k ∈ Finset.range ps.length,
        (ps.getD k (0, 0)).1 * (ps.getD k (0, 0)).1)
      - (∑ k ∈ Finset.range ps.length, (ps.getD k (0, 0)).1)
        * (∑ k ∈ Finset.range ps.length, (ps.getD k (0, 0)).1) := by
      rw [facA, sqsumA_eq, sumA_eq]
    rw [heq]
    nlinarith [haux, hm]

theorem facB_nonneg (ps : List (Int × Int)) : 0 ≤ facB ps := by
  rcases eq_or_ne ps [] with rfl | hne
  · decide
  · have hm : (0 : ℤ) < (ps.length : ℤ) := by
      exact_mod_cast List.length_pos.mpr hne
    have haux := fac_nonneg_aux ps.length (fun k => (ps.getD k (0, 0)).2)
    have heq : facB ps = (ps.length : ℤ) * (∑ k ∈ Finset.range ps.length,
        (ps.getD k (0, 0)).2 * (ps.getD k (0, 0)).2)
      - (∑ k ∈ Finset.range ps.length, (ps.getD k (0, 0)).2)
        * (∑ k ∈ Finset.range ps.length, (ps.getD k (0, 0)).2) := by
      rw [facB, sqsumB_eq, sumB_eq]
    rw [heq]
    nlinarith [haux, hm]

theorem covN_eq_zero_of_facA (ps : List (Int × Int)) (h : facA ps = 0) :
    covN ps = 0 := by
  rcases eq_or_ne ps [] with rfl | hne
  · decide
  · have hm : (0 : ℤ) < (ps.length : ℤ) := by
      exact_mod_cast List.length_pos.mpr hne
    have hAA := center_sum ps.length (fun k => (ps.getD k (0, 0)).1)
      (fun k => (ps.getD k (0, 0)).1)
    have hAzero : ((ps.length : ℤ) * (∑ k ∈ Finset.range ps.length,
        (ps.getD k (0, 0)).1 * (ps.getD k (0, 0)).1)
      - (∑ k ∈ Finset.range ps.length, (ps.getD k (0, 0)).1)
        * (∑ k ∈ Finset.range ps.length, (ps.getD k (0, 0)).1)) = 0 := by
      have heq : facA ps = (ps.length : ℤ) * (∑ k ∈ Finset.range ps.length,
          (ps.getD k (0, 0)).1 * (ps.getD k (0, 0)).1)
        - (∑ k ∈ Finset.range ps.length, (ps.getD k (0, 0)).1)
          * (∑ k ∈ Finset.range ps.length, (ps.getD k (0, 0)).1) := by
        rw [facA, sqsumA_eq, sumA_eq]
      rw [← heq]
      exact h
    rw [hAzero, mul_zero] at hAA
    have hall := (Finset.sum_eq_zero_iff_of_nonneg
      (fun k _ => mul_self_nonneg _)).mp hAA
    have hu : ∀ k ∈ Finset.range ps.length,
        (ps.length : ℤ) * (ps.getD k (0, 0)).1
          - ∑ j ∈ Finset.range ps.length, (ps.getD j (0, 0)).1 = 0 :=
      fun k hk => mul_self_eq_zero.mp (hall k hk)
    have hAB := center_sum ps.length (fun k => (ps.getD k (0, 0)).1)
      (fun k => (ps.getD k (0, 0)).2)
    have hL : ∑ k ∈ Finset.range ps.length,
        (((ps.length : ℤ) * (ps.getD k (0, 0)).1
            - ∑ j ∈ Finset.range ps.length, (ps.getD j (0, 0)).1)
          * ((ps.length : ℤ) * (ps.getD k (0, 0)).2
            - ∑ j ∈ Finset.range ps.length, (ps.getD j (0, 0)).2)) = 0 :=
      Finset.sum_eq_zero fun k hk => by rw [hu k hk, zero_mul]
    rw [hL] at hAB
    have hcform : (ps.length : ℤ) * ((ps.length : ℤ) * (∑ k ∈ Finset.range ps.length,
        (ps.getD k (0, 0)).1 * (ps.getD k (0, 0)).2)
      - (∑ k ∈ Finset.range ps.length, (ps.getD k (0, 0)).1)
        * (∑ k ∈ Finset.range ps.length, (ps.getD k (0, 0)).2)) = 0 := hAB.symm
    have heqc : covN ps = (ps.length : ℤ) * (∑ k ∈ Finset.range ps.length,
        (ps.getD k (0, 0)).1 * (ps.getD k (0, 0)).2)
      - (∑ k ∈ Finset.range ps.length, (ps.getD k (0, 0)).1)
        * (∑ k ∈ Finset.range ps.length, (ps.getD k (0, 0)).2) := by
      rw [covN, sumAB_eq, sumA_eq, sumB_eq]
    rcases mul_eq_zero.mp hcform with h0 | h0
    · exact absurd h0 (by exact_mod_cast hm.ne')
    · rw [heqc, h0]

theorem covN_eq_zero_of_facB (ps : List (Int × Int)) (h : facB ps = 0) :
    covN ps = 0 := by
  rcases eq_or_ne ps [] with rfl | hne
  · decide
  · have hm : (0 : ℤ) < (ps.length : ℤ) := by
      exact_mod_cast List.length_pos.mpr hne
    have hBB := center_sum ps.length (fun k => (ps.getD k (0, 0)).2)
      (fun k => (ps.getD k (0, 0)).2)
    have hBzero : ((ps.length : ℤ) * (∑ k ∈ Finset.range ps.length,
        (ps.getD k (0, 0)).2 * (ps.getD k (0, 0)).2)
      - (∑ k ∈ Finset.range ps.length, (ps.getD k (0, 0)).2)
        * (∑ k ∈ Finset.range ps.length, (ps.getD k (0, 0)).2)) = 0 := by
      have heq : facB ps = (ps.length : ℤ) * (∑ k ∈ Finset.range ps.length,
          (ps.getD k (0, 0)).2 * (ps.getD k (0, 0)).2)
        - (∑ k ∈ Finset.range ps.length, (ps.getD k (0, 0)).2)
          * (∑ k ∈ Finset.range ps.length, (ps.getD k (0, 0)).2) := by
        rw [facB, sqsumB_eq, sumB_eq]
      rw [← heq]
      exact h
    rw [hBzero, mul_zero] at hBB
    have hall := (Finset.sum_eq_zero_iff_of_nonneg
      (fun k _ => mul_self_nonneg _)).mp hBB
    have hv : ∀ k ∈ Finset.range ps.length,
        (ps.length : ℤ) * (ps.getD k (0, 0)).2
          - ∑ j ∈ Finset.range ps.length, (ps.getD j (0, 0)).2 = 0 :=
      fun k hk => mul_self_eq_zero.mp (hall k hk)
    have hAB := center_sum ps.length (fun k => (ps.getD k (0, 0)).1)
      (fun k => (ps.getD k (0, 0)).2)
    have hL : ∑ k ∈ Finset.range ps.length,
        (((ps.length : ℤ) * (ps.getD k (0, 0)).1
            - ∑ j ∈ Finset.range ps.length, (ps.getD j (0, 0)).1)
          * ((ps.length : ℤ) * (ps.getD k (0, 0)).2
            - ∑ j ∈ Finset.range ps.length, (ps.getD j (0, 0)).2)) = 0 :=
      Finset.sum_eq_zero fun k hk => by rw [hv k hk, mul_zero]
    rw [hL] at hAB
    have hcform : (ps.length : ℤ) * ((ps.length : ℤ) * (∑ k ∈ Finset.range ps.length,
        (ps.getD k (0, 0)).1 * (ps.getD k (0, 0)).2)
      - (∑ k ∈ Finset.range ps.length, (ps.getD k (0, 0)).1)
        * (∑ k ∈ Finset.range ps.length, (ps.getD k (0, 0)).2)) = 0 := hAB.symm
    have heqc : covN ps = (ps.length : ℤ) * (∑ k ∈ Finset.range ps.length,
        (ps.getD k (0, 0)).1 * (ps.getD k (0, 0)).2)
      - (∑ k ∈ Finset.range ps.length, (ps.getD k (0, 0)).1)
        * (∑ k ∈ Finset.range ps.length, (ps.getD k (0, 0)).2) := by
      rw [covN, sumAB_eq, sumA_eq, sumB_eq]
    rcases mul_eq_zero.mp hcform with h0 | h0
    · exact absurd h0 (by exact_mod_cast hm.ne')
    · rw [heqc, h0]

/-- Claim C5: whenever the Pearson radicand
`(n*sqsum1 - sum1^2)*(n*sqsum2 - sum2^2)` over the jointly non-missing
individuals is zero or negative (for example because one vector has zero
variance among them), `estR2` returns NaN, and since the C comparison
`r2 > threshold` is false for NaN, such a pair never makes the forward
scan break and never causes a rejection by itself. -/
theorem claim_C5_nan (g1 g2 : List Int)
    (hd : facA (joint g1 g2) * facB (joint g1 g2) ≤ 0) :
    estR2 g1 g2 = R2.nan ∧ ∀ t : ℚ, r2Exceeds (estR2 g1 g2) t = false := by
  have hA := facA_nonneg (joint g1 g2)
  have hB := facB_nonneg (joint g1 g2)
  have hprod0 : facA (joint g1 g2) * facB (joint g1 g2) = 0 :=
    le_antisymm hd (mul_nonneg hA hB)
  have hcov : covN (joint g1 g2) = 0 := by
    rcases mul_eq_zero.mp hprod0 with h | h
    · exact covN_eq_zero_of_facA _ h
    · exact covN_eq_zero_of_facB _ h
  have hest : estR2 g1 g2 = R2.nan := by
    simp only [estR2]
    rw [hprod0, hcov]
    norm_num
  exact ⟨hest, fun t => by rw [hest]; rfl⟩

/-- Claim C5 witness: the pair `[2,1,0]` against the constant vector
`[0,0,0]` has a zero radicand, yields NaN, and does not exceed the
threshold `0.1`. -/
theorem claim_C5_witness :
    facA (joint [2, 1, 0] [0, 0, 0]) * facB (joint [2, 1, 0] [0, 0, 0]) ≤ 0
    ∧ estR2 [2, 1, 0] [0, 0, 0] = R2.nan
    ∧ r2Exceeds (estR2 [2, 1, 0] [0, 0, 0]) tenth = false :=
  ⟨by decide, (claim_C5_nan [2, 1, 0] [0, 0, 0] (by decide)).1,
    (claim_C5_nan [2, 1, 0] [0, 0, 0] (by decide)).2 tenth⟩

/-- The configuration `-r2 3 1 0.1` of the claim C1 scenario (the `-mis`
and `-maf` fields are the prune_ld defaults; the scenario's records are
stipulated to pass the pre-filters, so they are not exercised). -/
def cfg1 : Config := ⟨3, 1, threeFifths, twentieth, tenth⟩

/-- Dosage vector `[0,1,2]` over three diploid individuals. -/
def gv012 : List (Option (ℕ × ℕ)) := [some (0, 2), some (1, 2), some (2, 2)]

/-- Dosage vector `[2,1,0]` over three diploid individuals. -/
def gv210 : List (Option (ℕ × ℕ)) := [some (2, 2), some (1, 2), some (0, 2)]

/-- Dosage vector `[0,0,0]` over three diploid individuals. -/
def gv000 : List (Option (ℕ × ℕ)) := [some (0, 2), some (0, 2), some (0, 2)]

/-- The three sites of the claim C1 scenario: chromosome "1", positions
10, 20, 30, dosage vectors `[0,1,2]`, `[2,1,0]`, `[0,0,0]`. -/
def recsC1 : List Record := [⟨"1", 10, gv012⟩, ⟨"1", 20, gv210⟩, ⟨"1", 30, gv000⟩]

/-- Claim C1 counterexample: with window 3, step 1, threshold 0.1 and the
three stipulated pre-filter-passing sites, the emitted kept set over the
whole run (end-of-stream flush included) is {20, 30}, not {30}: site 20's
own forward scan only meets the constant site 30 (NaN r-squared, no
conflict), so site 20 is kept and emitted. -/
theorem claim_C1_counterexample :
    cfg1.win = 3 ∧ cfg1.step = 1 ∧ cfg1.r2 = 1/10
    ∧ (runPassed cfg1 recsC1).out = [("1", 20), ("1", 30)]
    ∧ (runPassed cfg1 recsC1).out ≠ [("1", 30)] :=
  ⟨rfl, rfl, tenth_eq, by decide, by decide⟩

/-- Claim C1 (amended): in the window-3, step-1, threshold-0.1 scenario on
the three stipulated sites, the set of sites emitted as kept over the whole
run (end-of-stream flush included) is exactly {position 20, position 30},
in that order. -/
theorem claim_C1_amended :
    (runPassed cfg1 recsC1).out = [("1", 20), ("1", 30)] := by decide

theorem emitAt_evals (st : DriverState) (k : ℕ) : (emitAt st k).evals = st.evals := by
  unfold emitAt
  split <;> rfl

theorem afterFilters_evals (cfg : Config) (st : DriverState) :
    (afterFilters cfg st).evals =
      if (st.win_n = cfg.win - 1 ∧ cfg.step ≤ st.step_i)
          ∨ (cfg.win = cfg.step ∧ st.win_i = cfg.win - 1)
      then st.evals + 1 else st.evals := by
  by_cases htr : (st.win_n = cfg.win - 1 ∧ cfg.step ≤ st.step_i)
      ∨ (cfg.win = cfg.step ∧ st.win_i = cfg.win - 1)
  · simp only [afterFilters, if_pos htr]
    split
    · split
      · exact (emitAt_evals _ _).trans rfl
      · rfl
    · split
      · exact (emitAt_evals _ _).trans rfl
      · rfl
  · simp only [afterFilters, if_neg htr]
    split
    · split
      · exact (emitAt_evals _ _).trans rfl
      · rfl
    · split
      · exact (emitAt_evals _ _).trans rfl
      · rfl

theorem placedState_fields (cfg : Config) (st : DriverState) (rec : Record)
    (h3 : st.win_n = 0) :
    (placedState cfg st rec).win_n = st.win_n ∧ (placedState cfg st rec).win_i = st.win_i ∧
    (placedState cfg st rec).step_i = st.step_i ∧ (placedState cfg st rec).evals = st.evals := by
  have hfl : ¬ (0 < (clearGeno st).win_n ∧ (slot (clearGeno st).snps 0).chr ≠ rec.chr) := by
    rintro ⟨hlt, -⟩
    rw [show (clearGeno st).win_n = st.win_n from rfl, h3] at hlt
    exact absurd hlt (lt_irrefl 0)
  simp only [placedState, placeRecord]
  rw [if_neg hfl]
  exact ⟨rfl, rfl, rfl, rfl⟩

/-- Configuration `-r2 2 2 0.1`: window size equal to step size, both 2. -/
def cfg6 : Config := ⟨2, 2, threeFifths, twentieth, tenth⟩

/-- A single passing site on chromosome "1". -/
def recC6 : Record := ⟨"1", 10, gv012⟩

/-- Claim C6 counterexample: with window = step = 2, the first placement of
a pre-filter-passing site triggers no window evaluation at all (the ghost
counter of `estLD` invocations stays 0), refuting "every placement
evaluates". -/
theorem claim_C6_counterexample :
    cfg6.win = cfg6.step ∧ (stepPassed cfg6 (initState cfg6) recC6).evals = 0 :=
  ⟨rfl, by decide⟩

/-- Claim C6 (amended): with window = step, a placement triggers an
evaluation only when the write cursor sits on the last slot
(`win_i == win-1`) or the full-window step rule fires — once every `win`
placements; only in the case win = step = 1 does every placement evaluate,
which is what this theorem states (the counterexample shows win = step = 2
already violates the original claim). -/
theorem claim_C6_amended (cfg : Config) (st : DriverState) (rec : Record)
    (h1 : cfg.win = 1) (h2 : cfg.step = 1) (h3 : st.win_n = 0) (h4 : st.win_i = 0) :
    (stepPassed cfg st rec).evals = st.evals + 1 := by
  obtain ⟨hwn, hwi, hsi, hev⟩ := placedState_fields cfg st rec h3
  show (afterFilters cfg (placedState cfg st rec)).evals = st.evals + 1
  rw [afterFilters_evals]
  rw [if_pos (Or.inr ⟨h1.trans h2.symm, by rw [hwi, h4, h1]⟩)]
  rw [hev]

/-- Configuration `-r2 1 1 0.1`. -/
def cfgUnit : Config := ⟨1, 1, threeFifths, twentieth, tenth⟩

/-- Claim C6 amended witness: with win = step = 1, the first placement
evaluates. -/
theorem claim_C6_witness :
    (stepPassed cfgUnit (initState cfgUnit) recC6).evals = (initState cfgUnit).evals + 1 :=
  claim_C6_amended cfgUnit (initState cfgUnit) recC6 rfl rfl rfl rfl

/-- Configuration `-r2 2 1 0.1` for the two-chromosome scenario. -/
def cfg9 : Config := ⟨2, 1, threeFifths, twentieth, tenth⟩

/-- Chromosome "1", position 7, dosages `[0,1,2]`. -/
def rc91 : Record := ⟨"1", 7, gv012⟩

/-- Chromosome "2", position 5, dosages `[0,1,2]` — identical to `rc91`'s
vector, so the cross-chromosome r-squared would be 1 if it were ever
computed. -/
def rc92 : Record := ⟨"2", 5, gv012⟩

/-- The two-chromosome input of claim C9. -/
def recsC9 : List Record := [rc91, rc92]

/-- Claim C9: the r-squared estimator is only ever invoked on same-chromosome
pairs — every index the evaluator's scan loop passes to `estR2` holds an
active slot on the scanning site's chromosome — and on the concrete
two-chromosome input (cross-chromosome r-squared 1, within-chromosome no
pairs) the full run, pre-filters included, keeps all sites. -/
theorem claim_C9_isolation :
    (∀ (snps : List SNP) (t : ℚ) (gi : List Int) (ci : String) (js : List ℕ),
        ∀ j ∈ (scanLoop snps t gi ci js).1,
          (slot snps j).chr = ci ∧ (slot snps j).chr ≠ "")
    ∧ (runFull cfg9 recsC9).out = [("1", 7), ("2", 5)] := by
  refine ⟨chr_of_mem_scanLoop, ?_⟩
  have hmc1 : misCount rc91 = 0 := by decide
  have hind1 : (placedState cfg9 (initState cfg9) rc91).ind_n = 3 := by decide
  have hm1 : ¬ misFails cfg9 (initState cfg9) rc91 := by
    unfold misFails
    rw [hmc1, hind1, show cfg9.mis = threeFifths from rfl, threeFifths_eq]
    push_cast
    norm_num
  have ha1 : altN rc91 = 3 := by decide
  have hh1 : hapN rc91 = 6 := by decide
  have hf1 : ¬ mafFails cfg9 rc91 := by
    unfold mafFails
    rw [ha1, hh1, show cfg9.maf = twentieth from rfl, twentieth_eq]
    push_cast
    norm_num
  have hmc2 : misCount rc92 = 0 := by decide
  have hind2 : (placedState cfg9 (stepPassed cfg9 (initState cfg9) rc91) rc92).ind_n = 3 := by
    decide
  have hm2 : ¬ misFails cfg9 (stepPassed cfg9 (initState cfg9) rc91) rc92 := by
    unfold misFails
    rw [hmc2, hind2, show cfg9.mis = threeFifths from rfl, threeFifths_eq]
    push_cast
    norm_num
  have ha2 : altN rc92 = 3 := by decide
  have hh2 : hapN rc92 = 6 := by decide
  have hf2 : ¬ mafFails cfg9 rc92 := by
    unfold mafFails
    rw [ha2, hh2, show cfg9.maf = twentieth from rfl, twentieth_eq]
    push_cast
    norm_num
  show (flushEmit cfg9 (evalWindow cfg9
      (List.foldl (stepRecord cfg9) (initState cfg9) recsC9))).out = _
  rw [show List.foldl (stepRecord cfg9) (initState cfg9) recsC9
      = stepRecord cfg9 (stepRecord cfg9 (initState cfg9) rc91) rc92 from rfl,
    stepRecord_passes cfg9 (initState cfg9) rc91 hm1 hf1,
    stepRecord_passes cfg9 (stepPassed cfg9 (initState cfg9) rc91) rc92 hm2 hf2]
  decide

/-- Claim C9 witness: in the window `cexC2`, the scan of site 0 invokes
`estR2` exactly on index 1, an active slot on chromosome "1". -/
theorem claim_C9_witness : (slot cexC2 1).chr = "1" ∧ (slot cexC2 1).chr ≠ "" :=
  claim_C9_isolation.1 cexC2 tenth [0, 1, 2] "1" [1] 1 (by decide)

/-- Claim C10: a site at which every individual is missing is always
tombstoned by the missing-data branch via the `mis_i == ind_n` guard,
whatever the `-mis` threshold (first conjunct: the step function takes the
tombstoning branch, leaving counters untouched and triggering no
evaluation or emission); and whenever the missing-data branch is not taken
(so some individual is non-missing) the MAF denominator `hap_i` is strictly
positive, every ploidy being one of 2, 4, 6, 8 (second conjunct). -/
theorem claim_C10_all_missing :
    (∀ (cfg : Config) (st : DriverState) (rec : Record),
        st.ind_n = 0 ∨ st.ind_n = rec.gs.length →
        (∀ g ∈ rec.gs, g = none) →
        stepRecord cfg st rec = tombSlot (placedState cfg st rec))
    ∧ (∀ rec : Record, misCount rec ≠ rec.gs.length →
        (∀ p ∈ rec.gs.filterMap id, p.2 = 2 ∨ p.2 = 4 ∨ p.2 = 6 ∨ p.2 = 8) →
        0 < hapN rec) := by
  constructor
  · intro cfg st rec hind hall
    have hmc : misCount rec = rec.gs.length := by
      unfold misCount
      rw [List.countP_eq_length]
      intro a ha
      simp [hall a ha]
    have hindn : (placedState cfg st rec).ind_n = rec.gs.length := by
      show (if st.ind_n = 0 then rec.gs.length else st.ind_n) = rec.gs.length
      by_cases h0 : st.ind_n = 0
      · rw [if_pos h0]
      · rw [if_neg h0]
        rcases hind with h | h
        · exact absurd h h0
        · exact h
    unfold stepRecord
    rw [if_pos (Or.inr (hmc.trans hindn.symm))]
  · intro rec hne hpl
    have hex : ∃ g ∈ rec.gs, g ≠ none := by
      by_contra hno
      push_neg at hno
      apply hne
      unfold misCount
      rw [List.countP_eq_length]
      intro a ha
      simp [hno a ha]
    obtain ⟨g, hg, hgn⟩ := hex
    obtain ⟨p, rfl⟩ : ∃ p, g = some p := by
      cases g with
      | none => exact absurd rfl hgn
      | some p => exact ⟨p, rfl⟩
    have hpmem : p ∈ rec.gs.filterMap id := by
      rw [List.mem_filterMap]
      exact ⟨some p, hg, rfl⟩
    unfold hapN
    apply List.sum_pos
    · intro x hx
      rw [List.mem_map] at hx
      obtain ⟨d, hd, rfl⟩ := hx
      rcases hpl d hd with h | h | h | h <;> rw [h] <;> norm_num
    · intro hemp
      rw [List.map_eq_nil] at hemp
      rw [hemp] at hpmem
      exact absurd hpmem (List.not_mem_nil p)

/-- A record with every individual missing. -/
def recM : Record := ⟨"1", 50, [none, none, none]⟩

/-- Claim C10 witness: the all-missing record `recM` is tombstoned under
the C1 configuration, and a record with a non-missing diploid individual
has a positive MAF denominator. -/
theorem claim_C10_witness :
    stepRecord cfg1 (initState cfg1) recM = tombSlot (placedState cfg1 (initState cfg1) recM)
    ∧ 0 < hapN rc91 :=
  ⟨claim_C10_all_missing.1 cfg1 (initState cfg1) recM (Or.inl rfl) (by decide),
    claim_C10_all_missing.2 rc91 (by decide) (by decide)⟩

theorem evenAlleles_length : ∀ (l : List Char), (evenAlleles l).length = (l.length + 1) / 2
  | [] => by simp [evenAlleles]
  | [c] => by simp [evenAlleles]
  | c :: d :: rest => by
    have ih := evenAlleles_length rest
    simp only [evenAlleles, List.length_cons, ih]
    omega

theorem head_mem_evenAlleles : ∀ (c : Char) (rest : List Char), c ∈ evenAlleles (c :: rest)
  | c, [] => by simp [evenAlleles]
  | c, d :: rest => by simp [evenAlleles]

/-- Claim C7: a genotype token of length 3, 7, 11 or 15 whose even-offset
characters are all `0` or `1` yields the dosage equal to the count of `1`
characters at even offsets, bounded by the ploidy 2, 4, 6, 8 respectively
(the ploidy being `(length+1)/2`); and a token starting with the missing
marker `.` yields Missing regardless of the remaining characters. -/
theorem claim_C7_extract :
    (∀ tok : List Char,
      tok.length = 3 ∨ tok.length = 7 ∨ tok.length = 11 ∨ tok.length = 15 →
      (∀ a ∈ evenAlleles tok, a = '0' ∨ a = '1') →
      extractDosage tok =
        Except.ok (Geno.val ((evenAlleles tok).countP (fun a => a == '1'))
          (ploidyOf tok.length))
      ∧ (evenAlleles tok).countP (fun a => a == '1') ≤ ploidyOf tok.length
      ∧ ploidyOf tok.length = (tok.length + 1) / 2)
    ∧ (∀ rest : List Char, extractDosage ('.' :: rest) = Except.ok Geno.missing) := by
  constructor
  · intro tok hlen hall
    obtain ⟨c, rest, rfl⟩ : ∃ c rest, tok = c :: rest := by
      cases tok with
      | nil => rcases hlen with h | h | h | h <;> simp at h
      | cons c rest => exact ⟨c, rest, rfl⟩
    have hc01 : c = '0' ∨ c = '1' := hall c (head_mem_evenAlleles c rest)
    have hcdot : ¬ (c = '.') := by
      rcases hc01 with rfl | rfl <;> decide
    have hplo : ¬ (ploidyOf (c :: rest).length = 0) := by
      rcases hlen with h | h | h | h <;> rw [h] <;> decide
    have hallb : (evenAlleles (c :: rest)).all (fun a => a == '0' || a == '1') = true := by
      rw [List.all_eq_true]
      intro a ha
      rcases hall a ha with rfl | rfl <;> rfl
    refine ⟨?_, ?_, ?_⟩
    · simp only [extractDosage]
      rw [if_neg hcdot, if_neg hplo, if_pos hallb]
    · refine le_trans (List.countP_le_length _) (le_of_eq ?_)
      rw [evenAlleles_length]
      rcases hlen with h | h | h | h <;> rw [h] <;> rfl
    · rcases hlen with h | h | h | h <;> rw [h] <;> rfl
  · intro rest
    simp [extractDosage]

/-- Claim C7 witness: the diploid token `0/1` yields dosage 1 with ploidy
2, and the token `./.` yields Missing. -/
theorem claim_C7_witness :
    extractDosage ['0', '/', '1'] =
      Except.ok (Geno.val ((evenAlleles ['0', '/', '1']).countP (fun a => a == '1'))
        (ploidyOf (['0', '/', '1'] : List Char).length))
    ∧ (evenAlleles ['0', '/', '1']).countP (fun a => a == '1')
        ≤ ploidyOf (['0', '/', '1'] : List Char).length
    ∧ ploidyOf (['0', '/', '1'] : List Char).length
        = ((['0', '/', '1'] : List Char).length + 1) / 2
    ∧ extractDosage ['.', '/', '.'] = Except.ok Geno.missing := by
  obtain ⟨h1, h2, h3⟩ := claim_C7_extract.1 ['0', '/', '1'] (Or.inl rfl) (by decide)
  exact ⟨h1, h2, h3, claim_C7_extract.2 ['/', '.']⟩

/-- Claim C8: dosage extraction fails (modelled as `Except.error`, which in
the C program is `exit(EXIT_FAILURE)` after the diagnostic, so no dosage is
produced and no further site decision is made) exactly when the token is
non-missing (does not start with `.`) and either its length is outside
{3,7,11,15} (unsupported ploidy) or some even-offset character is neither
`0` nor `1`. -/
theorem claim_C8_error_iff (tok : List Char) :
    (∃ e, extractDosage tok = Except.error e) ↔
      tok.head? ≠ some '.' ∧
        (¬ (tok.length = 3 ∨ tok.length = 7 ∨ tok.length = 11 ∨ tok.length = 15)
          ∨ ∃ a ∈ evenAlleles tok, ¬ (a = '0' ∨ a = '1')) := by
  cases tok with
  | nil =>
    constructor
    · intro
      exact ⟨by simp, Or.inl (by decide)⟩
    · intro
      exact ⟨GenoErr.unsupportedPloidy, rfl⟩
  | cons c rest =>
    by_cases hdot : c = '.'
    · subst hdot
      constructor
      · rintro ⟨e, he⟩
        simp [extractDosage] at he
      · rintro ⟨hhd, -⟩
        simp at hhd
    · have hhd : (c :: rest).head? ≠ some '.' := by simp [hdot]
      by_cases hplo : ploidyOf (c :: rest).length = 0
      · have hlen : ¬ ((c :: rest).length = 3 ∨ (c :: rest).length = 7
            ∨ (c :: rest).length = 11 ∨ (c :: rest).length = 15) := by
          intro h
          rcases h with h | h | h | h <;> rw [h] at hplo <;> exact absurd hplo (by decide)
        constructor
        · intro
          exact ⟨hhd, Or.inl hlen⟩
        · intro
          refine ⟨GenoErr.unsupportedPloidy, ?_⟩
          simp only [extractDosage]
          rw [if_neg hdot, if_pos hplo]
      · by_cases hall : (evenAlleles (c :: rest)).all (fun a => a == '0' || a == '1') = true
        · have hok : extractDosage (c :: rest) =
              Except.ok (Geno.val ((evenAlleles (c :: rest)).countP (fun a => a == '1'))
                (ploidyOf (c :: rest).length)) := by
            simp only [extractDosage]
            rw [if_neg hdot, if_neg hplo, if_pos hall]
          constructor
          · rintro ⟨e, he⟩
            rw [hok] at he
            exact Except.noConfusion he
          · rintro ⟨-, hbad | ⟨a, ha, hnb⟩⟩
            · exfalso
              apply hplo
              unfold ploidyOf
              rw [if_neg (fun h => hbad (Or.inl h)),
                if_neg (fun h => hbad (Or.inr (Or.inl h))),
                if_neg (fun h => hbad (Or.inr (Or.inr (Or.inl h)))),
                if_neg (fun h => hbad (Or.inr (Or.inr (Or.inr h))))]
            · rw [List.all_eq_true] at hall
              exact absurd (by simpa using hall a ha) hnb
        · have herr : extractDosage (c :: rest) = Except.error GenoErr.unknownAllele := by
            simp only [extractDosage]
            rw [if_neg hdot, if_neg hplo, if_neg hall]
          constructor
          · intro
            refine ⟨hhd, Or.inr ?_⟩
            rw [List.all_eq_true] at hall
            push_neg at hall
            obtain ⟨a, ha, hab⟩ := hall
            refine ⟨a, ha, ?_⟩
            intro hor
            apply hab
            rcases hor with rfl | rfl <;> rfl
          · intro
            exact ⟨GenoErr.unknownAllele, herr⟩

/-- Claim C8 witness: the token `0/2` (a `2` at even offset 2) makes the
extractor fail. -/
theorem claim_C8_witness : ∃ e, extractDosage ['0', '/', '2'] = Except.error e :=
  (claim_C8_error_iff ['0', '/', '2']).mpr
    ⟨by decide, Or.inr ⟨'2', by decide, by decide⟩⟩

end PolySV
